import Mathlib

/-!
# Verification of the tessa search / price aggregation layer

Shallow embedding of `src/tessa/investing_search.py`, `src/tessa/price/price.py`
and the `Symbol` data model, with theorems settling the spec claims.

Modelling conventions:
* Python strings are Lean `String`s; `str.lower` / `str.upper` are modelled by
  `String.toLower` / `String.toUpper` (the strings involved — queries, symbols,
  currency codes — are ASCII).
* A pandas dataframe row is an association list from column names to cell
  values; `d[k]` (which raises `KeyError` when the column is absent) is
  modelled in the `Option` monad, `d.get(k, None)` by an `Option`-valued
  lookup.
* Python `set` operations on hashables are modelled by `List.dedup` /
  membership; the claims under verification are membership-based, so the
  unspecified iteration order of Python sets does not matter.
* Network calls (`investpy.search_*`, `investpy.search_quotes`, price sources)
  are oracles passed in as functions; a call that may raise
  `RuntimeError`/`ValueError` is an `Except`-valued oracle.
-/

namespace Tessa

/-- An `investpy` search object (`investpy.utils.search_obj.SearchObj`), as far
as `investing_search.py` reads it: the fields `symbol`, `name`, `country` and
`pair_type` plus the serialized form used as the `query` payload. -/
structure SearchObj where
  symbol : String
  name : String
  country : String
  pair_type : String
  deriving DecidableEq, Repr

/-- The payload stored in a `Symbol`'s `query` attribute: either a plain string
or an `investpy` search-object dict (`ast.literal_eval(str(obj)...)`). -/
inductive SymbolQuery where
  | str : String → SymbolQuery
  | searchobj : SearchObj → SymbolQuery
  deriving DecidableEq, Repr

/-- The `Symbol` record after `__post_init__` has run.  `aliases` holds
optional strings: the dataframe normalizer adds `d.get(..., None)` cell values
to the list unfiltered (see `dataframe_to_symbol_args`), so a Python `None`
(modelled as `none`) can end up among the aliases when a column is missing. -/
structure Symbol where
  name : String
  type_ : String
  query : SymbolQuery
  country : Option String
  aliases : List (Option String)
  deriving DecidableEq, Repr

namespace investing_types

/-- Modelled from the spec: the `investing_types` module is part of the
repository but not under `src/`; only its callers are.  The column-mapping
specification at the end of `investing_search.py` lists the supported singular
product types, and the search functions call the `investpy` endpoints
`search_<plural>`; this table pairs each singular type with its plural form. -/
def types_pairs : List (String × String) :=
  [("certificate", "certificates"), ("commodity", "commodities"),
   ("bond", "bonds"), ("currency_cross", "currency_crosses"),
   ("etf", "etfs"), ("fund", "funds"), ("index", "indices"),
   ("stock", "stocks")]

/-- Modelled from the spec: `investing_types.get_plurals` returns the plural
forms of the valid product types (the `valid_products` of both search
functions). -/
def get_plurals : List String := types_pairs.map Prod.snd

/-- Modelled from the spec: `investing_types.ensure_singular` maps a plural
product string to its singular form and leaves a singular form unchanged. -/
def ensure_singular (p : String) : String :=
  match types_pairs.find? (fun pr => pr.2 == p) with
  | some pr => pr.1
  | none => p

/-- Modelled from the spec: `investing_types.is_valid` holds for the supported
product types, in singular or plural form. -/
def is_valid (t : String) : Bool :=
  types_pairs.any (fun pr => pr.1 == t || pr.2 == t)

end investing_types

/-- Modelled from the spec: the `Symbol` dataclass constructor together with
its `__post_init__` (the file defining `Symbol` is not under `src/`; only its
tests and callers are).  Per the spec, "aliasing is deduplicated and type
defaults are inferred from the name's shape when unspecified"; per
`test_initializer_with_defaults` the type inferred for a ticker-shaped name
such as "AAPL" is "stock" with country "united states", and the query payload
defaults to the name; per `test_initalizer_without_country` a non-stock symbol
gets no country default.  The spec and tests pin down no other name shape, so
the model infers "stock" when the type is unspecified. -/
def Symbol.make (name : String) (type_? : Option String)
    (country? : Option String) (query? : Option SymbolQuery)
    (aliases : List (Option String)) : Symbol :=
  let type_ := type_?.getD "stock"
  { name := name
    type_ := type_
    query := query?.getD (SymbolQuery.str name)
    country :=
      match country? with
      | some c => some c
      | none => if type_ == "stock" then some "united states" else none
    aliases := aliases.dedup }

/-! ## `search_for_searchobjs` (investing_search.py, lines 161-228)

The function lowercases the query, validates the products, calls
`investpy.search_quotes` once, and triages the results into perfect and other
matches.  The network call is factored out: `search_for_searchobjs_call` is
the argument tuple passed to `investpy.search_quotes`, and
`search_for_searchobjs_triage` is the pure triage applied to whatever list the
provider returned. -/

/-- `x.symbol.lower() == query or x.name.lower() == query` with `query`
already lowercased (line 218). -/
def isPerfectMatch (query : String) (x : SearchObj) : Bool :=
  x.symbol.toLower == query || x.name.toLower == query

/-- `perfect_matches` (lines 217-219): the list comprehension filter. -/
def perfectMatches (query : String) (rs : List SearchObj) : List SearchObj :=
  rs.filter (fun x => isPerfectMatch query x)

/-- `other_matches = set(search_res) - set(perfect_matches)` (line 220):
membership in the difference is membership in `search_res` minus the perfect
matches; the Python `set` is modelled by deduplication. -/
def otherMatches (query : String) (rs : List SearchObj) : List SearchObj :=
  (rs.filter (fun x => !(isPerfectMatch query x))).dedup

/-- `_searchobj_to_symbols` (lines 136-156). -/
def searchobj_to_symbols (objs : List SearchObj) : List Symbol :=
  objs.map (fun obj =>
    Symbol.make obj.symbol
      (some (if investing_types.is_valid obj.pair_type then
               investing_types.ensure_singular obj.pair_type
             else obj.pair_type))
      (some obj.country)
      (some (SymbolQuery.searchobj obj))
      [some obj.name])

/-- The result dict of `search_for_searchobjs` (lines 221-228) as a function
of the list returned by `investpy.search_quotes`, modelled as an association
list; a category key is added only when its match list is non-empty. -/
def search_for_searchobjs_triage (query : String) (rs : List SearchObj) :
    List (String × List Symbol) :=
  let q := query.toLower
  (if perfectMatches q rs ≠ [] then
    [("investing_searchobj_perfect", searchobj_to_symbols (perfectMatches q rs))]
   else []) ++
  (if otherMatches q rs ≠ [] then
    [("investing_searchobj_other", searchobj_to_symbols (otherMatches q rs))]
   else [])

/-! ## `_dataframe_to_symbols` (investing_search.py, lines 44-75) -/

/-- A dataframe row, as `row.to_dict()` produces it: an association list from
column names to string cell values. -/
abbrev DfRow := List (String × String)

/-- `d.get(k, None)`: `Option`-valued column lookup. -/
def dget (d : DfRow) (k : String) : Option String :=
  (d.find? (fun kv => kv.1 == k)).map Prod.snd

/-- The keyword-argument record `args` that `_dataframe_to_symbols` builds for
one row before calling `Symbol(**args)`: `country` and `query` are `none` when
the corresponding key is not set. -/
structure SymbolArgs where
  type_ : String
  name : String
  country : Option String
  query : Option SymbolQuery
  aliases : List (Option String)
  deriving DecidableEq, Repr

/-- The body of the row loop of `_dataframe_to_symbols` (lines 54-74): builds
`args` for one row.  A direct subscript `d[...]` on an absent column raises
`KeyError`, modelled by the `Option` monad.  The alias expression
`{d.get("name"), d.get("full_name")} | {d.get("isin")} - {args["name"]} - {None, ""}`
parses — Python's binary `-` binds tighter than `|` — as
`{d.get("name"), d.get("full_name")} ∪ (({d.get("isin")} \ {args["name"]}) \ {None, ""})`:
the chosen name, `None` and the empty string are removed only from the
`isin` singleton, while the `name` and `full_name` cells (possibly `None` for
a missing column) enter the set unfiltered.  The set is modelled by
deduplicating the corresponding list of optional cell values. -/
def dataframe_to_symbol_args (d : DfRow) (product : String) :
    Option SymbolArgs :=
  let type_ := investing_types.ensure_singular product
  match (if type_ ≠ "currency_cross" then (dget d "country").map some
         else some none),
        (if type_ ∈ ["currency_cross", "bond", "commodity"] then dget d "name"
         else dget d "symbol"),
        (if type_ ∈ ["etf", "fund", "certificate", "index"] then
           (dget d "name").map (fun n => some (SymbolQuery.str n))
         else some none) with
  | some country, some name, some query =>
    some ⟨type_, name, country, query,
      ([dget d "name", dget d "full_name"] ++
        ([dget d "isin"].filter
          (fun x => x ≠ some name ∧ x ≠ none ∧ x ≠ some ""))).dedup⟩
  | _, _, _ => none

/-- One row of `_dataframe_to_symbols`: `Symbol(**args)`. -/
def dataframe_to_symbol (d : DfRow) (product : String) : Option Symbol :=
  (dataframe_to_symbol_args d product).map (fun a =>
    Symbol.make a.name (some a.type_) a.country a.query a.aliases)

/-- `_dataframe_to_symbols` over a whole dataframe; a `KeyError` in any row
aborts the call. -/
def dataframe_to_symbols (df : List DfRow) (product : String) :
    Option (List Symbol) :=
  df.mapM (fun d => dataframe_to_symbol d product)

/-! ## `search_name_or_symbol` (investing_search.py, lines 80-133)

The provider is an oracle `search : product → by → value → Except Unit df`
(`Except.error` models a `RuntimeError`/`ValueError` being raised, which the
loop catches with `continue`).  `search_name_or_symbol_run` returns both the
list of `(product, by)` endpoint invocations made, in order, and the result
dict (`none` models an uncaught `KeyError` from `_dataframe_to_symbols`). -/

/-- A `countries`/`products` argument: `None`, a single string, or a list. -/
inductive ParamInput where
  | nonePy : ParamInput
  | str : String → ParamInput
  | list : List String → ParamInput
  deriving DecidableEq, Repr

/-- `[x] if isinstance(x, str) else x` applied to an optional argument. -/
def ParamInput.normalize : ParamInput → Option (List String)
  | .nonePy => none
  | .str s => some [s]
  | .list l => some l

/-- Product validation of `search_name_or_symbol` (lines 115-119):
`set(products) & set(valid_products)` when given, else all valid products.
The Python set intersection is modelled as the sublist of `get_plurals` (which
has no duplicates) whose members occur in `products`; the claims proved about
it are membership-based, so the unspecified set iteration order is immaterial. -/
def validated_products_nos (products : ParamInput) : List String :=
  match products.normalize with
  | none => investing_types.get_plurals
  | some ps => investing_types.get_plurals.filter (fun v => v ∈ ps)

/-- `df[df.country.isin(countries)]` (lines 129-130), applied when
`countries is not None`; a row whose `country` cell is absent (`NaN`) is
filtered out, as with pandas. -/
def country_filter (countries : Option (List String)) (df : List DfRow) :
    List DfRow :=
  match countries with
  | none => df
  | some cs => df.filter (fun d => match dget d "country" with
      | some c => c ∈ cs
      | none => false)

/-- The `(product, by)` combinations the loop of `search_name_or_symbol`
iterates over: the cross product of the validated products and
`valid_bys = ["full_name", "name", "symbol"]` (lines 110, 123-124). -/
def nos_combos (products : ParamInput) : List (String × String) :=
  (validated_products_nos products).flatMap
    (fun product => ["full_name", "name", "symbol"].map (fun b => (product, b)))

/-- One iteration of the loop body of `search_name_or_symbol`
(lines 125-132): call the endpoint for the combination `pb` (a raised
`RuntimeError`/`ValueError` is caught and the combination skipped), filter by
country, and add the key `"investing_{product}_by_{by}"` when the filtered
dataframe is non-empty; a `KeyError` from `_dataframe_to_symbols` (`none`)
propagates. -/
def nos_step (search : String → String → String → Except Unit (List DfRow))
    (cs : Option (List String)) (q : String)
    (res : List (String × List Symbol)) (pb : String × String) :
    Option (List (String × List Symbol)) :=
  match search pb.1 pb.2 q with
  | .error _ => some res
  | .ok df =>
    let fdf := country_filter cs df
    if fdf.length > 0 then
      (dataframe_to_symbols fdf pb.1).map (fun syms =>
        res ++ [("investing_" ++ pb.1 ++ "_by_" ++ pb.2, syms)])
    else some res

/-- The search loop of `search_name_or_symbol` (lines 108-133).  Returns the
ordered list of `(product, by)` pairs for which a provider endpoint is
invoked, together with the result dict.  Each endpoint receives the
lowercased query. -/
def search_name_or_symbol_run
    (search : String → String → String → Except Unit (List DfRow))
    (query : String) (countries products : ParamInput) :
    List (String × String) × Option (List (String × List Symbol)) :=
  (nos_combos products,
   (nos_combos products).foldlM
     (nos_step search countries.normalize query.toLower) [])

/-! ## `search_for_searchobjs`: parameter preparation and the provider call
(investing_search.py, lines 189-214) -/

/-- Product validation of `search_for_searchobjs` (lines 195-199):
intersect with the valid products, then `products or None` — an empty
intersection is replaced by `None`. -/
def validated_products_sfso (products : ParamInput) : Option (List String) :=
  match products.normalize with
  | none => none
  | some ps =>
    let inter := investing_types.get_plurals.filter (fun v => v ∈ ps)
    if inter = [] then none else some inter

/-- The argument tuple passed to `investpy.search_quotes` (lines 203-207). -/
structure QuotesCall where
  text : String
  products : Option (List String)
  countries : Option (List String)
  deriving DecidableEq, Repr

/-- The arguments `search_for_searchobjs` passes to its single
`investpy.search_quotes` call: lowercased query, normalized countries,
validated products (`none` = search all products). -/
def search_for_searchobjs_call (query : String) (countries products : ParamInput) :
    QuotesCall :=
  { text := query.toLower
    products := validated_products_sfso products
    countries := countries.normalize }

/-- The whole of `search_for_searchobjs` given the provider's response to the
`QuotesCall` (`Except.error` models `ValueError`/`RuntimeError`, which the
function turns into `{}`; a non-list `SearchObj` response is a singleton
list). -/
def search_for_searchobjs_full
    (search_quotes : QuotesCall → Except Unit (List SearchObj))
    (query : String) (countries products : ParamInput) :
    List (String × List Symbol) :=
  match search_quotes (search_for_searchobjs_call query countries products) with
  | .error _ => []
  | .ok rs => search_for_searchobjs_triage query rs

/-! ## The price layer (price/price.py)

The dataframe of a price history is a list of `(timestamp, close)` rows: the
tests (`test_symbol.py`, lines 61-67) treat the frame as having the single
value column "close", which is what `float(price)` on a row requires.
Timestamps are integers, prices are rationals; `float(...)` is the identity in
the model.  `PriceHistory` and `PricePoint` are named tuples defined in the
`price` package (their defining file is not under `src/`); they are modelled
from the spec and the tests as plain records. -/

/-- A price-history dataframe: rows of (timestamp index label, close). -/
abbrev Df := List (Int × ℚ)

/-- Modelled from the spec: `PricePoint`, "a tuple of the price, the effective
timestamp of the price, and the currency" (docstring of `price_point`; the
defining file is not under `src/`). -/
structure PricePoint where
  when : Int
  price : ℚ
  currency : String
  deriving DecidableEq, Repr

/-- A `PriceHistory` value as the cache holds it: the currency plus a
*reference* to a heap cell holding the dataframe.  The heap makes Python's
object identity explicit: `lru_cache` stores the returned `PriceHistory`
object, so a cache hit hands out the same dataframe object again, and caller
mutations are visible through it. -/
structure PriceHistoryRef where
  df_ref : Nat
  currency : String
  deriving DecidableEq, Repr

/-- The state threaded through `price_history` calls: the heap of dataframe
objects, the `lru_cache` table keyed by the full argument tuple, and a counter
of underlying source queries. -/
structure PriceState where
  heap : List Df
  cache : List ((String × String × String) × PriceHistoryRef)
  source_calls : Nat
  deriving Repr

/-- The empty state: fresh caches, no source queries yet. -/
def PriceState.init : PriceState := ⟨[], [], 0⟩

/-- Dereference a dataframe object. -/
def PriceState.deref (st : PriceState) (r : Nat) : Df := (st.heap.get? r).getD []

/-- A caller mutating, in place, the dataframe object it was handed. -/
def PriceState.mutate (st : PriceState) (r : Nat) (df : Df) : PriceState :=
  { st with heap := st.heap.set r df }

/-- `price_history` (price/price.py, lines 18-43), memoized by
`custom_cache_wrapper` = `lru_cache(maxsize=None)`.  The source is the oracle
`fetch source query currency_preference = (df, effective_currency)`, assumed
deterministic for the duration of the cached session (`rate_limit` has no
observable effect in the model).  On a miss the function queries the source,
allocates a *fresh copy* of the source's dataframe (`df.copy()`), caches and
returns a `PriceHistory` of that copy and the uppercased effective currency;
on a hit it returns the cached `PriceHistory` object itself. -/
def price_history_step (fetch : String → String → String → Df × String)
    (query source currency_preference : String) (st : PriceState) :
    PriceHistoryRef × PriceState :=
  match st.cache.find? (fun kv => kv.1 == (query, source, currency_preference)) with
  | some kv => (kv.2, st)
  | none =>
    let res := fetch source query currency_preference
    let ph : PriceHistoryRef := ⟨st.heap.length, res.2.toUpper⟩
    (ph, { heap := st.heap ++ [res.1]
           cache := st.cache ++ [((query, source, currency_preference), ph)]
           source_calls := st.source_calls + 1 })

/-- The unmemoized `price_history`: query the source and uppercase the
currency, as the function body does, with no cache in sight. -/
def price_history_pure (fetch : String → String → String → Df × String)
    (query source currency_preference : String) : Df × String :=
  ((fetch source query currency_preference).1,
   (fetch source query currency_preference).2.toUpper)

/-- One comparison step of the nearest-timestamp search. -/
def nearest_step (when : Int) (acc : Option (Int × ℚ)) (r : Int × ℚ) :
    Option (Int × ℚ) :=
  match acc with
  | none => some r
  | some b => if |r.1 - when| < |b.1 - when| then some r else some b

/-- `df.index.get_indexer([when], method="nearest")[0]` followed by `iloc`
(price/price.py, line 63): the row whose timestamp is nearest to `when`
(`none` on an empty frame, where pandas raises). -/
def nearest_row (df : Df) (when : Int) : Option (Int × ℚ) :=
  df.foldl (nearest_step when) none

/-- `price_point` (lines 45-64) applied to an already-fetched history:
nearest-row lookup, `float(price)` on the single-column row, timestamps from
the row's index label. -/
def price_point_model (df : Df) (currency : String) (when : Int) :
    Option PricePoint :=
  (nearest_row df when).map (fun r => ⟨r.1, r.2, currency⟩)

/-- `price_point_strict` (lines 67-79) applied to an already-fetched history:
`df.loc[when]` raises `KeyError` (modelled by `Except.error`) exactly when the
label is absent; otherwise the row's `close` at the row's own index label. -/
def price_point_strict_model (df : Df) (currency : String) (when : Int) :
    Except Unit PricePoint :=
  match df.find? (fun r => r.1 == when) with
  | none => Except.error ()
  | some r => Except.ok ⟨r.1, r.2, currency⟩

/-- `price_latest` (lines 82-91) applied to an already-fetched history:
`df.iloc[-1]` (`none` on an empty frame, where pandas raises). -/
def price_latest_model (df : Df) (currency : String) : Option PricePoint :=
  df.getLast?.map (fun r => ⟨r.1, r.2, currency⟩)

/-- `price_point` end to end: fetch (through the cache) and look up. -/
def price_point_full (fetch : String → String → String → Df × String)
    (query : String) (when : Int) (source currency_preference : String)
    (st : PriceState) : Option PricePoint × PriceState :=
  let r := price_history_step fetch query source currency_preference st
  (price_point_model (r.2.deref r.1.df_ref) r.1.currency when, r.2)

/-- `price_point_strict` end to end. -/
def price_point_strict_full (fetch : String → String → String → Df × String)
    (query : String) (when : Int) (source currency_preference : String)
    (st : PriceState) : Except Unit PricePoint × PriceState :=
  let r := price_history_step fetch query source currency_preference st
  (price_point_strict_model (r.2.deref r.1.df_ref) r.1.currency when, r.2)

/-- `price_latest` end to end. -/
def price_latest_full (fetch : String → String → String → Df × String)
    (query source currency_preference : String)
    (st : PriceState) : Option PricePoint × PriceState :=
  let r := price_history_step fetch query source currency_preference st
  (price_latest_model (r.2.deref r.1.df_ref) r.1.currency, r.2)

end Tessa

/-! ## Helper lemmas -/

namespace Tessa

theorem uint32_le_iff (a b : UInt32) : a ≤ b ↔ a.toNat ≤ b.toNat := Iff.rfl

/-- ASCII-uppercasing a character never yields a lowercase letter. -/
theorem char_toUpper_isLower (c : Char) : (Char.toUpper c).isLower = false := by
  have hcc : Char.toNat c = c.val.toNat := rfl
  simp only [Char.toUpper]
  split
  next h =>
    obtain ⟨h1, h2⟩ := h
    have hv : (Char.toNat c - 32).isValidChar := Or.inl (by omega)
    rw [Char.ofNat, dif_pos hv]
    simp only [Char.isLower, Char.ofNatAux]
    rw [Bool.and_eq_false_iff]
    left
    simp only [ge_iff_le, decide_eq_false_iff_not, uint32_le_iff]
    show ¬ (97 ≤ (BitVec.ofNatLt (Char.toNat c - 32) _).toNat)
    rw [BitVec.toNat_ofNatLt]
    omega
  next h =>
    simp only [Char.isLower]
    rw [Bool.and_eq_false_iff]
    rcases Nat.lt_or_ge (Char.toNat c) 97 with hlt | hge
    · left
      simp only [ge_iff_le, decide_eq_false_iff_not, uint32_le_iff]
      show ¬ (97 ≤ c.val.toNat)
      omega
    · right
      simp only [decide_eq_false_iff_not, uint32_le_iff]
      show ¬ (c.val.toNat ≤ 122)
      have hc : ¬ (Char.toNat c ≤ 122) := fun hc => h ⟨hge, hc⟩
      omega

/-- The characters of `s.toUpper`. -/
theorem toUpper_data (s : String) :
    (String.toUpper s).data = s.data.map Char.toUpper := by
  rw [String.toUpper, String.map_eq]

/-- No character of an uppercased string is a lowercase letter. -/
theorem toUpper_no_lower (s : String) :
    ∀ c ∈ (String.toUpper s).data, c.isLower = false := by
  intro c hc
  rw [toUpper_data] at hc
  obtain ⟨d, _, rfl⟩ := List.mem_map.mp hc
  exact char_toUpper_isLower d

/-- Membership in `perfectMatches`. -/
theorem mem_perfectMatches (q : String) (rs : List SearchObj) (x : SearchObj) :
    x ∈ perfectMatches q rs ↔
      x ∈ rs ∧ (x.symbol.toLower = q ∨ x.name.toLower = q) := by
  simp [perfectMatches, List.mem_filter, isPerfectMatch]

/-- Membership in `otherMatches`. -/
theorem mem_otherMatches (q : String) (rs : List SearchObj) (x : SearchObj) :
    x ∈ otherMatches q rs ↔
      x ∈ rs ∧ ¬(x.symbol.toLower = q ∨ x.name.toLower = q) := by
  simp [otherMatches, List.mem_dedup, List.mem_filter, isPerfectMatch, not_or]

/-! ## Claim theorems -/

/-- C1: `search_for_searchobjs` classifies a returned search result as a
"perfect" match iff its lowercased symbol or lowercased name equals the
lowercased query; the "perfect" and "other" categories are disjoint and
together contain every returned result, and a category key appears in the
returned dict only when its list of matches is non-empty. -/
theorem claim_C1 (query : String) (rs : List SearchObj) (x : SearchObj) :
    (x ∈ perfectMatches query.toLower rs ↔
      x ∈ rs ∧ (x.symbol.toLower = query.toLower ∨ x.name.toLower = query.toLower))
    ∧ (x ∈ perfectMatches query.toLower rs → x ∉ otherMatches query.toLower rs)
    ∧ (x ∈ rs →
        x ∈ perfectMatches query.toLower rs ∨ x ∈ otherMatches query.toLower rs)
    ∧ (∀ k l, (k, l) ∈ search_for_searchobjs_triage query rs → l ≠ []) := by
  refine ⟨mem_perfectMatches _ rs x, ?_, ?_, ?_⟩
  · intro hp ho
    rw [mem_perfectMatches] at hp
    rw [mem_otherMatches] at ho
    exact ho.2 hp.2
  · intro hx
    by_cases hm : x.symbol.toLower = query.toLower ∨ x.name.toLower = query.toLower
    · exact Or.inl ((mem_perfectMatches _ rs x).mpr ⟨hx, hm⟩)
    · exact Or.inr ((mem_otherMatches _ rs x).mpr ⟨hx, hm⟩)
  · intro k l hkl
    rw [search_for_searchobjs_triage, List.mem_append] at hkl
    rcases hkl with h | h <;>
    · split at h <;> simp only [List.mem_singleton, List.not_mem_nil] at h
      · rename_i hne
        cases h
        simp only [searchobj_to_symbols, ne_eq, List.map_eq_nil_iff]
        exact hne

/-- C7: a `Symbol` constructed without an explicit type gets the default type
inferred from its name — "AAPL" becomes a stock with country "united states"
and query "AAPL" — while a crypto-typed symbol gets no country. -/
theorem claim_C7 (name : String) :
    Symbol.make "AAPL" none none none [] =
      { name := "AAPL", type_ := "stock", query := SymbolQuery.str "AAPL",
        country := some "united states", aliases := [] }
    ∧ (Symbol.make name (some "crypto") none none []).country = none := by
  constructor
  · decide
  · simp [Symbol.make]

/-- C8: on a non-empty products list containing no valid product, the two
search functions diverge — `search_name_or_symbol` validates to the empty
product set, performs no endpoint call and returns the empty dict, while
`search_for_searchobjs` turns the empty intersection into `None` and hence
asks `investpy.search_quotes` for all products. -/
theorem claim_C8 (ps : List String) (hne : ps ≠ [])
    (hinv : ∀ p ∈ ps, p ∉ investing_types.get_plurals)
    (search : String → String → String → Except Unit (List DfRow))
    (query : String) (countries : ParamInput) :
    validated_products_nos (ParamInput.list ps) = []
    ∧ search_name_or_symbol_run search query countries (ParamInput.list ps) =
        ([], some [])
    ∧ (search_for_searchobjs_call query countries (ParamInput.list ps)).products =
        none := by
  have hfil : investing_types.get_plurals.filter (fun v => decide (v ∈ ps)) = [] := by
    rw [List.filter_eq_nil_iff]
    intro v hv
    simp only [decide_eq_true_eq]
    exact fun hmem => hinv v hmem hv
  have hval : validated_products_nos (ParamInput.list ps) = [] := by
    simp only [validated_products_nos, ParamInput.normalize]
    exact hfil
  refine ⟨hval, ?_, ?_⟩
  · simp [search_name_or_symbol_run, nos_combos, hval]
  · simp only [search_for_searchobjs_call, validated_products_sfso,
      ParamInput.normalize, hfil, if_pos]

/-- C8 witness: the concrete products list `["foo"]` is non-empty, entirely
invalid, and exhibits the divergence. -/
theorem claim_C8_witness :
    (["foo"] ≠ ([] : List String))
    ∧ (∀ p ∈ ["foo"], p ∉ investing_types.get_plurals)
    ∧ (validated_products_nos (ParamInput.list ["foo"]) = []
       ∧ search_name_or_symbol_run (fun _ _ _ => Except.error ()) "x"
           ParamInput.nonePy (ParamInput.list ["foo"]) = ([], some [])
       ∧ (search_for_searchobjs_call "x" ParamInput.nonePy
           (ParamInput.list ["foo"])).products = none) :=
  ⟨by decide, by decide,
   claim_C8 ["foo"] (by decide) (by decide) (fun _ _ _ => Except.error ()) "x"
     ParamInput.nonePy⟩

/-- The key that `search_name_or_symbol` would record for a combination,
when its endpoint call succeeds with a non-empty country-filtered dataframe. -/
def nos_key_of (search : String → String → String → Except Unit (List DfRow))
    (cs : Option (List String)) (q : String) (pb : String × String) :
    Option String :=
  match search pb.1 pb.2 q with
  | .error _ => none
  | .ok df =>
    if (country_filter cs df).length > 0 then
      some ("investing_" ++ pb.1 ++ "_by_" ++ pb.2)
    else none

/-- The keys accumulated by the loop of `search_name_or_symbol`: whenever the
fold completes without a `KeyError`, the result's key list extends the
accumulator's by exactly the keys of the successful non-empty combinations,
in iteration order. -/
theorem nos_fold_keys (search : String → String → String → Except Unit (List DfRow))
    (cs : Option (List String)) (q : String) :
    ∀ (combos : List (String × String)) (acc r : List (String × List Symbol)),
      combos.foldlM (nos_step search cs q) acc = some r →
      r.map Prod.fst = acc.map Prod.fst ++ combos.filterMap (nos_key_of search cs q)
  | [], acc, r, h => by
    simp only [List.foldlM_nil, pure, Option.some.injEq] at h
    subst h
    simp
  | pb :: rest, acc, r, h => by
    rw [List.foldlM_cons] at h
    cases hs : search pb.1 pb.2 q with
    | error e =>
      rw [nos_step, hs] at h
      simp only [Option.bind_eq_bind, Option.some_bind] at h
      have ih := nos_fold_keys search cs q rest acc r h
      simp only [List.filterMap_cons, nos_key_of, hs, ih]
    | ok df =>
      by_cases hlen : (country_filter cs df).length > 0
      · cases hconv : dataframe_to_symbols (country_filter cs df) pb.1 with
        | none =>
          rw [nos_step, hs] at h
          simp only [hconv, if_pos hlen, Option.map_none, Option.bind_eq_bind,
            Option.none_bind] at h
          exact absurd h (by simp)
        | some syms =>
          rw [nos_step, hs] at h
          simp only [hconv, if_pos hlen, Option.map_some, Option.bind_eq_bind,
            Option.some_bind] at h
          have ih := nos_fold_keys search cs q rest
            (acc ++ [("investing_" ++ pb.1 ++ "_by_" ++ pb.2, syms)]) r h
          rw [ih]
          simp only [List.filterMap_cons, nos_key_of, hs, if_pos hlen,
            List.map_append, List.map_cons, List.map_nil, List.append_assoc,
            List.nil_append, List.singleton_append]
      · rw [nos_step, hs] at h
        simp only [if_neg hlen, Option.bind_eq_bind, Option.some_bind] at h
        have ih := nos_fold_keys search cs q rest acc r h
        simp only [List.filterMap_cons, nos_key_of, hs, if_neg hlen, ih]

/-- C2: `search_name_or_symbol` issues one endpoint call per element of the
cross product of the validated product set with the three match fields
`full_name`, `name`, `symbol` (each with the lowercased query), and — when no
`KeyError` escapes — the returned dict's keys are exactly
`"investing_{product}_by_{by}"` for the combinations whose endpoint call did
not raise and whose country-filtered dataframe is non-empty, in iteration
order; combinations that raise `RuntimeError`/`ValueError` are skipped. -/
theorem claim_C2 (search : String → String → String → Except Unit (List DfRow))
    (query : String) (countries products : ParamInput) :
    (search_name_or_symbol_run search query countries products).1 =
      (validated_products_nos products).flatMap
        (fun p => ["full_name", "name", "symbol"].map (fun b => (p, b)))
    ∧ (∀ p, p ∈ validated_products_nos products ↔
        p ∈ investing_types.get_plurals ∧
          (products.normalize = none ∨
            ∃ l, products.normalize = some l ∧ p ∈ l))
    ∧ (∀ r, (search_name_or_symbol_run search query countries products).2 = some r →
        r.map Prod.fst = (nos_combos products).filterMap
          (nos_key_of search countries.normalize query.toLower)) := by
  refine ⟨rfl, ?_, ?_⟩
  · intro p
    rw [validated_products_nos]
    cases hn : products.normalize with
    | none => simp
    | some l => simp [List.mem_filter]
  · intro r h
    have hk := nos_fold_keys search countries.normalize query.toLower
      (nos_combos products) [] r h
    simpa using hk

/-- A concrete endpoint oracle for exercising `search_name_or_symbol`: the
`etfs`-by-`symbol` endpoint returns one row, every other endpoint raises. -/
def c2_search_example : String → String → String → Except Unit (List DfRow) :=
  fun p b _ =>
    if p = "etfs" ∧ b = "symbol" then
      Except.ok [[("country", "united states"), ("symbol", "AAA"),
                  ("name", "AAA ETF")]]
    else Except.error ()

/-- The dict `search_name_or_symbol` produces for `c2_search_example`. -/
def c2_expected : List (String × List Symbol) :=
  [("investing_etfs_by_symbol",
    [{ name := "AAA", type_ := "etf", query := SymbolQuery.str "AAA ETF",
       country := some "united states",
       aliases := [some "AAA ETF", none] }])]

/-- C2 witness: the concrete run against `c2_search_example` completes with
the single key of the one successful non-empty combination. -/
theorem claim_C2_witness :
    (search_name_or_symbol_run c2_search_example "AAA" ParamInput.nonePy
        (ParamInput.list ["etfs"])).2 = some c2_expected
    ∧ c2_expected.map Prod.fst =
        (nos_combos (ParamInput.list ["etfs"])).filterMap
          (nos_key_of c2_search_example ParamInput.nonePy.normalize
            (String.toLower "AAA")) :=
  ⟨by decide,
   (claim_C2 c2_search_example "AAA" ParamInput.nonePy
      (ParamInput.list ["etfs"])).2.2 c2_expected (by decide)⟩

/-- A concrete `search_quotes` result list: one exact-symbol match for the
query "AAPL" and one unrelated result. -/
def c1_rs : List SearchObj :=
  [⟨"AAPL", "Apple Inc", "united states", "stocks"⟩,
   ⟨"APLE", "Apple Hospitality REIT", "united states", "stocks"⟩]

/-- C1 witness: the triage instantiated on the concrete result list `c1_rs`
for the query "AAPL". -/
theorem claim_C1_witness :
    ((⟨"AAPL", "Apple Inc", "united states", "stocks"⟩ : SearchObj) ∈
        perfectMatches (String.toLower "AAPL") c1_rs ↔
      (⟨"AAPL", "Apple Inc", "united states", "stocks"⟩ : SearchObj) ∈ c1_rs
      ∧ (String.toLower "AAPL" = String.toLower "AAPL"
         ∨ String.toLower "Apple Inc" = String.toLower "AAPL"))
    ∧ ((⟨"AAPL", "Apple Inc", "united states", "stocks"⟩ : SearchObj) ∈
        perfectMatches (String.toLower "AAPL") c1_rs →
       (⟨"AAPL", "Apple Inc", "united states", "stocks"⟩ : SearchObj) ∉
        otherMatches (String.toLower "AAPL") c1_rs)
    ∧ ((⟨"AAPL", "Apple Inc", "united states", "stocks"⟩ : SearchObj) ∈ c1_rs →
       (⟨"AAPL", "Apple Inc", "united states", "stocks"⟩ : SearchObj) ∈
          perfectMatches (String.toLower "AAPL") c1_rs
       ∨ (⟨"AAPL", "Apple Inc", "united states", "stocks"⟩ : SearchObj) ∈
          otherMatches (String.toLower "AAPL") c1_rs)
    ∧ (∀ k l, (k, l) ∈ search_for_searchobjs_triage "AAPL" c1_rs → l ≠ []) :=
  claim_C1 "AAPL" c1_rs ⟨"AAPL", "Apple Inc", "united states", "stocks"⟩

/-- C3: `_dataframe_to_symbols` builds the `Symbol` keyword arguments per the
column-mapping specification — `name` from the "name" column for
`currency_cross`, `bond` and `commodity` and from the "symbol" column
otherwise; `query` set from the "name" column exactly for `etf`, `fund`,
`certificate` and `index`; `country` from the "country" column for every type
except `currency_cross`, which gets no country — and the constructed `Symbol`
keeps the chosen name and country. -/
theorem claim_C3 (d : DfRow) (product : String) (a : SymbolArgs)
    (h : dataframe_to_symbol_args d product = some a) :
    a.type_ = investing_types.ensure_singular product
    ∧ (investing_types.ensure_singular product ∈
        ["currency_cross", "bond", "commodity"] → dget d "name" = some a.name)
    ∧ (investing_types.ensure_singular product ∉
        ["currency_cross", "bond", "commodity"] → dget d "symbol" = some a.name)
    ∧ (investing_types.ensure_singular product ∈
        ["etf", "fund", "certificate", "index"] →
        ∃ n, dget d "name" = some n ∧ a.query = some (SymbolQuery.str n))
    ∧ (investing_types.ensure_singular product ∉
        ["etf", "fund", "certificate", "index"] → a.query = none)
    ∧ (investing_types.ensure_singular product ≠ "currency_cross" →
        ∃ c, dget d "country" = some c ∧ a.country = some c)
    ∧ (investing_types.ensure_singular product = "currency_cross" →
        a.country = none)
    ∧ (∀ s, dataframe_to_symbol d product = some s →
        s.name = a.name ∧ s.type_ = a.type_ ∧ s.country = a.country) := by
  have h0 := h
  unfold dataframe_to_symbol_args at h
  dsimp only at h
  split at h
  case h_2 => exact absurd h (by simp)
  rename_i country name query hc hn hq
  rw [Option.some.injEq] at h
  subst h
  refine ⟨rfl, ?_, ?_, ?_, ?_, ?_, ?_, ?_⟩
  · intro hmem
    rw [if_pos hmem] at hn
    exact hn
  · intro hmem
    rw [if_neg hmem] at hn
    exact hn
  · intro hmem
    rw [if_pos hmem, Option.map_eq_some'] at hq
    obtain ⟨n, hdn, hqn⟩ := hq
    exact ⟨n, hdn, hqn ▸ rfl⟩
  · intro hmem
    rw [if_neg hmem, Option.some.injEq] at hq
    exact hq.symm
  · intro hne
    rw [if_pos hne, Option.map_eq_some'] at hc
    obtain ⟨c, hdc, hcc⟩ := hc
    exact ⟨c, hdc, hcc ▸ rfl⟩
  · intro heq
    rw [if_neg (by simp [heq]), Option.some.injEq] at hc
    exact hc.symm
  · intro s hs
    rw [dataframe_to_symbol, h0, Option.map_some', Option.some.injEq] at hs
    subst hs
    refine ⟨rfl, rfl, ?_⟩
    cases hcountry : country with
    | some c => simp [Symbol.make, hcountry]
    | none =>
      by_cases hcc : investing_types.ensure_singular product ≠ "currency_cross"
      · rw [if_pos hcc, Option.map_eq_some'] at hc
        obtain ⟨c, _, hbad⟩ := hc
        rw [hcountry] at hbad
        cases hbad
      · push_neg at hcc
        simp [Symbol.make, hcountry, hcc]

/-- A concrete `currency_crosses` dataframe row. -/
def c3_row : DfRow :=
  [("name", "USD/AED"), ("full_name", "USD/AED - US Dollar UAE Dirham")]

/-- The keyword arguments `_dataframe_to_symbols` builds for `c3_row`. -/
def c3_args : SymbolArgs :=
  ⟨"currency_cross", "USD/AED", none, none,
   [some "USD/AED", some "USD/AED - US Dollar UAE Dirham"]⟩

/-- C3 witness: the column mapping instantiated on the concrete
`currency_crosses` row `c3_row`. -/
theorem claim_C3_witness :
    dataframe_to_symbol_args c3_row "currency_crosses" = some c3_args
    ∧ (c3_args.type_ = investing_types.ensure_singular "currency_crosses"
      ∧ (investing_types.ensure_singular "currency_crosses" ∈
          ["currency_cross", "bond", "commodity"] →
            dget c3_row "name" = some c3_args.name)
      ∧ (investing_types.ensure_singular "currency_crosses" ∉
          ["currency_cross", "bond", "commodity"] →
            dget c3_row "symbol" = some c3_args.name)
      ∧ (investing_types.ensure_singular "currency_crosses" ∈
          ["etf", "fund", "certificate", "index"] →
            ∃ n, dget c3_row "name" = some n
              ∧ c3_args.query = some (SymbolQuery.str n))
      ∧ (investing_types.ensure_singular "currency_crosses" ∉
          ["etf", "fund", "certificate", "index"] → c3_args.query = none)
      ∧ (investing_types.ensure_singular "currency_crosses" ≠ "currency_cross" →
          ∃ c, dget c3_row "country" = some c ∧ c3_args.country = some c)
      ∧ (investing_types.ensure_singular "currency_crosses" = "currency_cross" →
          c3_args.country = none)
      ∧ (∀ s, dataframe_to_symbol c3_row "currency_crosses" = some s →
          s.name = c3_args.name ∧ s.type_ = c3_args.type_
            ∧ s.country = c3_args.country)) :=
  ⟨by decide, claim_C3 c3_row "currency_crosses" c3_args (by decide)⟩

/-- A concrete bonds dataframe row: the chosen name is the `name` cell, which
the alias set keeps. -/
def c4_bond_row : DfRow :=
  [("country", "argentina"), ("name", "Argentina 1Y"),
   ("full_name", "Argentina 1Y Bond")]

/-- A concrete funds dataframe row with no `full_name` column, so
`d.get("full_name", None)` puts `None` into the alias set. -/
def c4_fund_row : DfRow :=
  [("country", "united states"), ("symbol", "0P0000A29Q"),
   ("name", "Some Fund")]

/-- C4 counterexample.  Python's binary `-` binds tighter than `|`, so the
alias expression of `_dataframe_to_symbols` removes the chosen name, `None`
and `""` only from the `{d.get("isin")}` singleton: a bond row keeps the
chosen name (the `name` cell) in its aliases, and a fund row with no
`full_name` column keeps `None`.  Independently, `_searchobj_to_symbols`
passes `aliases=[obj.name]` while choosing `obj.symbol` as the name, so a
search object whose `name` equals its `symbol` also puts the chosen name into
the aliases. -/
theorem claim_C4_counterexample :
    (∃ s, dataframe_to_symbol c4_bond_row "bonds" = some s
      ∧ some s.name ∈ s.aliases)
    ∧ (∃ s, dataframe_to_symbol c4_fund_row "funds" = some s
      ∧ none ∈ s.aliases)
    ∧ (∃ s ∈ searchobj_to_symbols [⟨"FOO", "FOO", "united states", "stocks"⟩],
      some s.name ∈ s.aliases) := by decide

/-- C4 as amended: both normalizers deduplicate the aliases list, but neither
guarantees the claimed exclusions.  For `_dataframe_to_symbols` the aliases
are exactly the `name` and `full_name` cells — unfiltered, so they may
include the chosen name, `None` (a missing column) or the empty string —
together with the `isin` cell when that differs from the chosen name and is
neither `None` nor empty (the removals apply only to the `{isin}` singleton
by operator precedence).  For `_searchobj_to_symbols` the aliases list is the
singleton `[obj.name]`: never `None` and without repeats, but equal to the
chosen name whenever the search object's `name` equals its `symbol` (and the
empty string exactly when `obj.name` is empty). -/
theorem claim_C4_amended :
    (∀ d product s, dataframe_to_symbol d product = some s →
      s.aliases.Nodup
      ∧ ∀ x, x ∈ s.aliases ↔
          ((x = dget d "name" ∨ x = dget d "full_name")
           ∨ (x = dget d "isin" ∧ x ≠ some s.name ∧ x ≠ none ∧ x ≠ some "")))
    ∧ (∀ objs s, s ∈ searchobj_to_symbols objs →
      s.aliases.Nodup ∧
        ∃ obj ∈ objs, s.aliases = [some obj.name] ∧ s.name = obj.symbol) := by
  constructor
  · intro d product s hs
    rw [dataframe_to_symbol] at hs
    cases ha : dataframe_to_symbol_args d product with
    | none => rw [ha] at hs; cases hs
    | some a =>
      rw [ha, Option.map_some', Option.some.injEq] at hs
      subst hs
      unfold dataframe_to_symbol_args at ha
      dsimp only at ha
      split at ha
      case h_2 => exact absurd ha (by simp)
      rename_i country name query hc hn hq
      rw [Option.some.injEq] at ha
      subst ha
      refine ⟨List.nodup_dedup _, ?_⟩
      intro x
      simp only [Symbol.make, List.mem_dedup, List.mem_append, List.mem_filter,
        List.mem_cons, List.not_mem_nil, or_false, decide_eq_true_eq]
  · intro objs s hs
    rw [searchobj_to_symbols, List.mem_map] at hs
    obtain ⟨obj, hobj, hmk⟩ := hs
    subst hmk
    have hdedup : ([some obj.name] : List (Option String)).dedup =
        [some obj.name] := by
      rw [List.dedup_cons_of_not_mem (by simp), List.dedup_nil]
    constructor
    · simp only [Symbol.make]
      exact List.nodup_dedup _
    · exact ⟨obj, hobj, by simp only [Symbol.make]; rw [hdedup], rfl⟩

/-- A concrete stocks dataframe row exercising the alias construction. -/
def c4_row : DfRow :=
  [("country", "united states"), ("symbol", "AAPL"), ("name", "Apple"),
   ("full_name", "Apple Inc"), ("isin", "US0378331005")]

/-- The `Symbol` that `_dataframe_to_symbols` builds from `c4_row`. -/
def c4_sym : Symbol :=
  { name := "AAPL", type_ := "stock", query := SymbolQuery.str "AAPL",
    country := some "united states",
    aliases := [some "Apple", some "Apple Inc", some "US0378331005"] }

/-- A concrete search object whose name differs from its symbol. -/
def c4_obj : SearchObj := ⟨"PINS", "Pinterest", "united states", "stocks"⟩

/-- The `Symbol` that `_searchobj_to_symbols` builds from `c4_obj`. -/
def c4_obj_sym : Symbol :=
  { name := "PINS", type_ := "stock", query := SymbolQuery.searchobj c4_obj,
    country := some "united states", aliases := [some "Pinterest"] }

/-- C4 witness: the amended claim instantiated on the concrete inputs
`c4_row` and `[c4_obj]`. -/
theorem claim_C4_amended_witness :
    (dataframe_to_symbol c4_row "stocks" = some c4_sym
      ∧ (c4_sym.aliases.Nodup
        ∧ ∀ x, x ∈ c4_sym.aliases ↔
            ((x = dget c4_row "name" ∨ x = dget c4_row "full_name")
             ∨ (x = dget c4_row "isin" ∧ x ≠ some c4_sym.name ∧ x ≠ none
                ∧ x ≠ some ""))))
    ∧ (c4_obj_sym ∈ searchobj_to_symbols [c4_obj]
      ∧ (c4_obj_sym.aliases.Nodup ∧ ∃ obj ∈ [c4_obj],
          c4_obj_sym.aliases = [some obj.name]
            ∧ c4_obj_sym.name = obj.symbol)) :=
  ⟨⟨by decide, claim_C4_amended.1 c4_row "stocks" c4_sym (by decide)⟩,
   ⟨by decide, claim_C4_amended.2 [c4_obj] c4_obj_sym (by decide)⟩⟩

/-- C5: with a deterministic source, calling `price_history` twice with the
same `(query, source, currency_preference)` tuple returns equal `PriceHistory`
values and leaves the cache untouched, the source having been queried exactly
once in total; the returned value is observationally the unmemoized result
(the fetched dataframe and the uppercased effective currency); and the cache
keys on the full argument tuple, so a call with any different tuple misses and
queries the source again. -/
theorem claim_C5 (fetch : String → String → String → Df × String)
    (q src cp q2 src2 cp2 : String) (hne : (q2, src2, cp2) ≠ (q, src, cp)) :
    (price_history_step fetch q src cp
        (price_history_step fetch q src cp PriceState.init).2).1 =
      (price_history_step fetch q src cp PriceState.init).1
    ∧ (price_history_step fetch q src cp
        (price_history_step fetch q src cp PriceState.init).2).2 =
      (price_history_step fetch q src cp PriceState.init).2
    ∧ (price_history_step fetch q src cp PriceState.init).2.source_calls = 1
    ∧ ((price_history_step fetch q src cp PriceState.init).2.deref
          (price_history_step fetch q src cp PriceState.init).1.df_ref,
       (price_history_step fetch q src cp PriceState.init).1.currency) =
        price_history_pure fetch q src cp
    ∧ (price_history_step fetch q2 src2 cp2
        (price_history_step fetch q src cp PriceState.init).2).2.source_calls =
      2 := by
  have h1 : price_history_step fetch q src cp PriceState.init =
      (⟨0, (fetch src q cp).2.toUpper⟩,
       ⟨[(fetch src q cp).1],
        [((q, src, cp), ⟨0, (fetch src q cp).2.toUpper⟩)], 1⟩) := rfl
  rw [h1]
  have hhit : price_history_step fetch q src cp
      (⟨[(fetch src q cp).1],
        [((q, src, cp), ⟨0, (fetch src q cp).2.toUpper⟩)], 1⟩ : PriceState) =
      (⟨0, (fetch src q cp).2.toUpper⟩,
       ⟨[(fetch src q cp).1],
        [((q, src, cp), ⟨0, (fetch src q cp).2.toUpper⟩)], 1⟩) := by
    rw [price_history_step]
    simp
  have hmiss : (price_history_step fetch q2 src2 cp2
      (⟨[(fetch src q cp).1],
        [((q, src, cp), ⟨0, (fetch src q cp).2.toUpper⟩)], 1⟩ :
          PriceState)).2.source_calls = 2 := by
    rw [price_history_step]
    have hfind : (((q, src, cp), (⟨0, (fetch src q cp).2.toUpper⟩ :
        PriceHistoryRef)) :: []).find?
          (fun kv => kv.1 == (q2, src2, cp2)) = none := by
      rw [List.find?_cons_of_neg, List.find?_nil]
      simp only [beq_iff_eq]
      exact fun hcontra => hne (hcontra ▸ rfl)
    rw [hfind]
  refine ⟨by rw [hhit], by rw [hhit], rfl, ?_, hmiss⟩
  rw [PriceState.deref, price_history_pure]
  rfl

/-- C5 witness: a concrete deterministic source with two distinct argument
tuples. -/
theorem claim_C5_witness :
    ((("BTC-USD", "yahoo", "CHF") : String × String × String) ≠
        ("BTC-USD", "yahoo", "USD"))
    ∧ ((price_history_step (fun _ _ _ => ([(0, 1)], "usd")) "BTC-USD" "yahoo"
          "USD" (price_history_step (fun _ _ _ => ([(0, 1)], "usd")) "BTC-USD"
            "yahoo" "USD" PriceState.init).2).1 =
        (price_history_step (fun _ _ _ => ([(0, 1)], "usd")) "BTC-USD" "yahoo"
          "USD" PriceState.init).1
      ∧ (price_history_step (fun _ _ _ => ([(0, 1)], "usd")) "BTC-USD" "yahoo"
          "USD" (price_history_step (fun _ _ _ => ([(0, 1)], "usd")) "BTC-USD"
            "yahoo" "USD" PriceState.init).2).2 =
        (price_history_step (fun _ _ _ => ([(0, 1)], "usd")) "BTC-USD" "yahoo"
          "USD" PriceState.init).2
      ∧ (price_history_step (fun _ _ _ => ([(0, 1)], "usd")) "BTC-USD" "yahoo"
          "USD" PriceState.init).2.source_calls = 1
      ∧ ((price_history_step (fun _ _ _ => ([(0, 1)], "usd")) "BTC-USD" "yahoo"
            "USD" PriceState.init).2.deref
            (price_history_step (fun _ _ _ => ([(0, 1)], "usd")) "BTC-USD"
              "yahoo" "USD" PriceState.init).1.df_ref,
         (price_history_step (fun _ _ _ => ([(0, 1)], "usd")) "BTC-USD" "yahoo"
            "USD" PriceState.init).1.currency) =
          price_history_pure (fun _ _ _ => ([(0, 1)], "usd")) "BTC-USD" "yahoo"
            "USD"
      ∧ (price_history_step (fun _ _ _ => ([(0, 1)], "usd")) "BTC-USD" "yahoo"
          "CHF" (price_history_step (fun _ _ _ => ([(0, 1)], "usd")) "BTC-USD"
            "yahoo" "USD" PriceState.init).2).2.source_calls = 2) :=
  ⟨by decide,
   claim_C5 (fun _ _ _ => ([(0, 1)], "usd")) "BTC-USD" "yahoo" "USD" "BTC-USD"
     "yahoo" "CHF" (by decide)⟩

/-- A deterministic source used to exhibit the cache-aliasing defect: it
always serves the one-row history `[(0, 1)]` with currency "usd". -/
def c6_fetch : String → String → String → Df × String :=
  fun _ _ _ => ([(0, 1)], "usd")

/-- The state after a first `price_history` call on a fresh session. -/
def c6_st1 : PriceState :=
  (price_history_step c6_fetch "BTC-USD" "yahoo" "USD" PriceState.init).2

/-- The dataframe object handed to the first caller. -/
def c6_ref : Nat :=
  (price_history_step c6_fetch "BTC-USD" "yahoo" "USD" PriceState.init).1.df_ref

/-- The second call, issued after the first caller mutated, in place, the
dataframe it was handed. -/
def c6_r2 : PriceHistoryRef × PriceState :=
  price_history_step c6_fetch "BTC-USD" "yahoo" "USD"
    (c6_st1.mutate c6_ref [(0, 2)])

/-- C6: evaluating the code at the failing input.  `lru_cache` stores the
`PriceHistory` that `price_history` returns — the object holding the one
`df.copy()` made on the miss — so a cache hit returns that same dataframe
object, not a fresh copy: after the first caller mutates its frame from
`[(0, 1)]` to `[(0, 2)]`, the second call with the same arguments observes
`[(0, 2)]`, although the source's (unmemoized) answer is still `[(0, 1)]`.
This contradicts the code's own comment ("Returning a copy of the dataframe
so the cached original is preserved even if it gets modified by the caller")
and the claim that mutating a returned dataframe never changes later
results. -/
theorem claim_C6 :
    c6_r2.1.df_ref = c6_ref
    ∧ c6_r2.2.deref c6_r2.1.df_ref = [(0, 2)]
    ∧ (price_history_pure c6_fetch "BTC-USD" "yahoo" "USD").1 = [(0, 1)]
    ∧ ([(0, 2)] : Df) ≠ [(0, 1)] := by decide

/-- The nearest-timestamp fold, started from a candidate `b`, lands on a row
that is `b` or in the list, and minimizes the distance to `when`. -/
theorem nearest_fold_spec (when : Int) :
    ∀ (df : Df) (b : Int × ℚ),
      ∃ r, df.foldl (nearest_step when) (some b) = some r
        ∧ (r = b ∨ r ∈ df)
        ∧ |r.1 - when| ≤ |b.1 - when|
        ∧ ∀ x ∈ df, |r.1 - when| ≤ |x.1 - when|
  | [], b => ⟨b, rfl, Or.inl rfl, le_refl _, by simp⟩
  | r' :: rest, b => by
    simp only [List.foldl_cons]
    by_cases hlt : |r'.1 - when| < |b.1 - when|
    · rw [show nearest_step when (some b) r' = some r' from by
        rw [nearest_step]; rw [if_pos hlt]]
      obtain ⟨r, hfold, hmem, hle, hall⟩ := nearest_fold_spec when rest r'
      refine ⟨r, hfold, ?_, le_trans hle (le_of_lt hlt), ?_⟩
      · rcases hmem with rfl | hm
        · exact Or.inr (List.mem_cons_self _ _)
        · exact Or.inr (List.mem_cons_of_mem _ hm)
      · intro x hx
        rcases List.mem_cons.mp hx with rfl | hx'
        · exact hle
        · exact hall x hx'
    · rw [show nearest_step when (some b) r' = some b from by
        rw [nearest_step]; rw [if_neg hlt]]
      obtain ⟨r, hfold, hmem, hle, hall⟩ := nearest_fold_spec when rest b
      push_neg at hlt
      refine ⟨r, hfold, ?_, hle, ?_⟩
      · rcases hmem with rfl | hm
        · exact Or.inl rfl
        · exact Or.inr (List.mem_cons_of_mem _ hm)
      · intro x hx
        rcases List.mem_cons.mp hx with rfl | hx'
        · exact le_trans hle hlt
        · exact hall x hx'

/-- On a non-empty history, the nearest-row search returns a row of the
history at minimal distance from `when`. -/
theorem nearest_row_spec (df : Df) (when : Int) (hne : df ≠ []) :
    ∃ r ∈ df, nearest_row df when = some r
      ∧ ∀ x ∈ df, |r.1 - when| ≤ |x.1 - when| := by
  cases df with
  | nil => exact absurd rfl hne
  | cons b rest =>
    rw [nearest_row, List.foldl_cons]
    rw [show nearest_step when none b = some b from rfl]
    obtain ⟨r, hfold, hmem, hle, hall⟩ := nearest_fold_spec when rest b
    refine ⟨r, ?_, hfold, ?_⟩
    · rcases hmem with rfl | hm
      · exact List.mem_cons_self _ _
      · exact List.mem_cons_of_mem _ hm
    · intro x hx
      rcases List.mem_cons.mp hx with rfl | hx'
      · exact hle
      · exact hall x hx'

/-- In a list of rows with pairwise distinct first components, the first
component determines the row. -/
theorem nodup_fst_eq {l : List (Int × ℚ)} (h : (l.map Prod.fst).Nodup)
    {a : Int} {b c : ℚ} (h1 : (a, b) ∈ l) (h2 : (a, c) ∈ l) : b = c := by
  induction l with
  | nil => cases h1
  | cons x xs ih =>
    rw [List.map_cons, List.nodup_cons] at h
    rcases List.mem_cons.mp h1 with he1 | h1' <;>
      rcases List.mem_cons.mp h2 with he2 | h2'
    · exact congrArg Prod.snd (he1.trans he2.symm)
    · rw [← he1] at h
      exact absurd (List.mem_map_of_mem Prod.fst h2') h.1
    · rw [← he2] at h
      exact absurd (List.mem_map_of_mem Prod.fst h1') h.1
    · exact ih h.2 h1' h2'

/-- C9: on a history with distinct timestamps, `price_point_strict` raises
`KeyError` iff the exact timestamp `when` is absent from the index; when
present it returns the `PricePoint` of that row's close at exactly `when`;
and `price_point` never raises on a non-empty history, returning the row
nearest to `when`. -/
theorem claim_C9 (df : Df) (cur : String) (when : Int)
    (hnodup : (df.map Prod.fst).Nodup) :
    (price_point_strict_model df cur when = Except.error () ↔
      when ∉ df.map Prod.fst)
    ∧ (∀ p, (when, p) ∈ df →
        price_point_strict_model df cur when = Except.ok ⟨when, p, cur⟩)
    ∧ (df ≠ [] → ∃ r ∈ df,
        price_point_model df cur when = some ⟨r.1, r.2, cur⟩
        ∧ ∀ x ∈ df, |r.1 - when| ≤ |x.1 - when|) := by
  refine ⟨?_, ?_, ?_⟩
  · cases hf : df.find? (fun r => r.1 == when) with
    | none =>
      have herr : price_point_strict_model df cur when = Except.error () := by
        simp only [price_point_strict_model, hf]
      refine iff_of_true herr ?_
      intro hmem
      rw [List.mem_map] at hmem
      obtain ⟨x, hx, hfst⟩ := hmem
      have := List.find?_eq_none.mp hf x hx
      rw [beq_iff_eq] at this
      exact this hfst
    | some r =>
      have hok : price_point_strict_model df cur when =
          Except.ok ⟨r.1, r.2, cur⟩ := by
        simp only [price_point_strict_model, hf]
      refine iff_of_false (by rw [hok]; exact fun hcontra => by cases hcontra) ?_
      intro hmem
      have hrw : r.1 = when := by
        have := List.find?_some hf
        rwa [beq_iff_eq] at this
      exact hmem (hrw ▸ List.mem_map_of_mem Prod.fst (List.mem_of_find?_eq_some hf))
  · intro p hp
    cases hf : df.find? (fun r => r.1 == when) with
    | none =>
      have := List.find?_eq_none.mp hf (when, p) hp
      rw [beq_iff_eq] at this
      exact absurd rfl this
    | some r =>
      have hrw : r.1 = when := by
        have := List.find?_some hf
        rwa [beq_iff_eq] at this
      have hrmem : (when, r.2) ∈ df := by
        have := List.mem_of_find?_eq_some hf
        rwa [show r = (r.1, r.2) from rfl, hrw] at this
      have hpr : r.2 = p := nodup_fst_eq hnodup hrmem hp
      simp only [price_point_strict_model, hf, hrw, hpr]
  · intro hne
    obtain ⟨r, hr, hfold, hall⟩ := nearest_row_spec df when hne
    exact ⟨r, hr, by simp only [price_point_model, hfold, Option.map_some'], hall⟩

/-- A concrete two-row price history with distinct timestamps. -/
def c9_df : Df := [(1, 10), (3, 30)]

/-- C9 witness: the point lookups instantiated on `c9_df` at `when = 2`, a
timestamp absent from the index. -/
theorem claim_C9_witness :
    (c9_df.map Prod.fst).Nodup
    ∧ ((price_point_strict_model c9_df "USD" 2 = Except.error () ↔
          (2 : Int) ∉ c9_df.map Prod.fst)
      ∧ (∀ p, ((2 : Int), p) ∈ c9_df →
          price_point_strict_model c9_df "USD" 2 = Except.ok ⟨2, p, "USD"⟩)
      ∧ (c9_df ≠ [] → ∃ r ∈ c9_df,
          price_point_model c9_df "USD" 2 = some ⟨r.1, r.2, "USD"⟩
          ∧ ∀ x ∈ c9_df, |r.1 - 2| ≤ |x.1 - 2|)) :=
  ⟨by decide, claim_C9 c9_df "USD" 2 (by decide)⟩

/-- C10: starting from a cache in which every stored effective currency is an
uppercased string (as the empty cache trivially is), `price_history` returns
an effective currency that is an uppercased string — hence contains no
lowercase letter, whatever casing the source returns — preserves that cache
invariant, and the currency of every `PricePoint` produced by `price_point`,
`price_point_strict` and `price_latest` contains no lowercase letter. -/
theorem claim_C10 (fetch : String → String → String → Df × String)
    (q src cp : String) (when : Int) (st : PriceState)
    (hwf : ∀ kv ∈ st.cache, ∃ s, kv.2.currency = String.toUpper s) :
    (∃ s, (price_history_step fetch q src cp st).1.currency = String.toUpper s)
    ∧ (∀ c ∈ (price_history_step fetch q src cp st).1.currency.data,
        c.isLower = false)
    ∧ (∀ kv ∈ (price_history_step fetch q src cp st).2.cache,
        ∃ s, kv.2.currency = String.toUpper s)
    ∧ (∀ pp, (price_point_full fetch q when src cp st).1 = some pp →
        ∀ c ∈ pp.currency.data, c.isLower = false)
    ∧ (∀ pp, (price_point_strict_full fetch q when src cp st).1 =
        Except.ok pp → ∀ c ∈ pp.currency.data, c.isLower = false)
    ∧ (∀ pp, (price_latest_full fetch q src cp st).1 = some pp →
        ∀ c ∈ pp.currency.data, c.isLower = false) := by
  have hcur : ∃ s, (price_history_step fetch q src cp st).1.currency =
      String.toUpper s := by
    cases hf : st.cache.find? (fun kv => kv.1 == (q, src, cp)) with
    | some kv =>
      have hstep : (price_history_step fetch q src cp st).1 = kv.2 := by
        simp only [price_history_step, hf]
      rw [hstep]
      exact hwf kv (List.mem_of_find?_eq_some hf)
    | none =>
      have hstep : (price_history_step fetch q src cp st).1 =
          ⟨st.heap.length, (fetch src q cp).2.toUpper⟩ := by
        simp only [price_history_step, hf]
      rw [hstep]
      exact ⟨(fetch src q cp).2, rfl⟩
  have hlow : ∀ c ∈ (price_history_step fetch q src cp st).1.currency.data,
      c.isLower = false := by
    obtain ⟨s, hs⟩ := hcur
    rw [hs]
    exact toUpper_no_lower s
  refine ⟨hcur, hlow, ?_, ?_, ?_, ?_⟩
  · cases hf : st.cache.find? (fun kv => kv.1 == (q, src, cp)) with
    | some kv =>
      have hstep : (price_history_step fetch q src cp st).2 = st := by
        simp only [price_history_step, hf]
      rw [hstep]
      exact hwf
    | none =>
      have hstep : (price_history_step fetch q src cp st).2.cache =
          st.cache ++ [((q, src, cp),
            ⟨st.heap.length, (fetch src q cp).2.toUpper⟩)] := by
        simp only [price_history_step, hf]
      rw [hstep]
      intro kv hkv
      rcases List.mem_append.mp hkv with hold | hnew
      · exact hwf kv hold
      · rw [List.mem_singleton] at hnew
        subst hnew
        exact ⟨(fetch src q cp).2, rfl⟩
  · intro pp hpp
    simp only [price_point_full, price_point_model, Option.map_eq_some'] at hpp
    obtain ⟨r, -, hr⟩ := hpp
    rw [← hr]
    exact hlow
  · intro pp hpp
    simp only [price_point_strict_full] at hpp
    rw [price_point_strict_model] at hpp
    split at hpp
    · cases hpp
    · rw [Except.ok.injEq] at hpp
      rw [← hpp]
      exact hlow
  · intro pp hpp
    simp only [price_latest_full, price_latest_model, Option.map_eq_some'] at hpp
    obtain ⟨r, -, hr⟩ := hpp
    rw [← hr]
    exact hlow

/-- C10 witness: a fresh session against a source reporting the lowercase
currency "usd". -/
theorem claim_C10_witness :
    (∀ kv ∈ PriceState.init.cache, ∃ s, kv.2.currency = String.toUpper s)
    ∧ ((∃ s, (price_history_step c6_fetch "BTC-USD" "yahoo" "USD"
          PriceState.init).1.currency = String.toUpper s)
      ∧ (∀ c ∈ (price_history_step c6_fetch "BTC-USD" "yahoo" "USD"
          PriceState.init).1.currency.data, c.isLower = false)
      ∧ (∀ kv ∈ (price_history_step c6_fetch "BTC-USD" "yahoo" "USD"
          PriceState.init).2.cache, ∃ s, kv.2.currency = String.toUpper s)
      ∧ (∀ pp, (price_point_full c6_fetch "BTC-USD" 0 "yahoo" "USD"
          PriceState.init).1 = some pp →
            ∀ c ∈ pp.currency.data, c.isLower = false)
      ∧ (∀ pp, (price_point_strict_full c6_fetch "BTC-USD" 0 "yahoo" "USD"
          PriceState.init).1 = Except.ok pp →
            ∀ c ∈ pp.currency.data, c.isLower = false)
      ∧ (∀ pp, (price_latest_full c6_fetch "BTC-USD" "yahoo" "USD"
          PriceState.init).1 = some pp →
            ∀ c ∈ pp.currency.data, c.isLower = false)) :=
  ⟨by simp [PriceState.init],
   claim_C10 c6_fetch "BTC-USD" "yahoo" "USD" 0 PriceState.init
     (by simp [PriceState.init])⟩

end Tessa
